import Mathlib

/-!
Shallow embedding of `experiment_scripts/eval_poses.py`: the pose sampler
`get_evaluation_poses`, the reachability evaluator `evaluate_ik`, and the
relevant part of `main`.

The numpy random generator `np.random.default_rng(seed)` is modelled
abstractly as a structure `Rng` of deterministic draw streams, obtained from
the integer seed through a function `mkRng : ℤ → Rng` over which all theorems
quantify.  `rng.normal` is the stream of standard-normal draws (any real
value), consumed four at a time by `Rotation.random`; `rng.unit` is the
stream of unit-interval uniform draws consumed by the three `rng.uniform`
calls of the sampler, in call order (call 0 uses indices `0..n-1`, call 1
uses `n..2n-1`, call 2 uses `2n..3n-1`).
-/

/-- Deterministic draw streams of a seeded numpy generator. -/
structure Rng where
  normal : ℕ → ℝ
  unit : ℕ → ℝ

/-- numpy `rng.uniform(lo, hi)` applied to a unit-interval draw `u`:
`lo + (hi - lo) * u`. -/
def npUniform (lo hi u : ℝ) : ℝ := lo + (hi - lo) * u

/-- scipy `Rotation.as_matrix` on quaternion `[x, y, z, w]` (scalar last),
entries as computed in scipy `_rotation.pyx` for a normalized quaternion. -/
def scipyQuatMatrix (x y z w : ℝ) : Matrix (Fin 3) (Fin 3) ℝ :=
  !![x^2 - y^2 - z^2 + w^2, 2*(x*y - z*w),          2*(x*z + y*w);
     2*(x*y + z*w),         -x^2 + y^2 - z^2 + w^2, 2*(y*z - x*w);
     2*(x*z - y*w),         2*(y*z + x*w),          -x^2 - y^2 + z^2 + w^2]

/-- scipy `Rotation.random(num, random_state=rng).as_matrix()[i]`: the i-th
rotation draws four normal variates (indices `4i .. 4i+3`), `from_quat`
normalizes them, and `as_matrix` converts to a matrix. -/
noncomputable def rotationRandomMatrix (rng : Rng) (i : ℕ) : Matrix (Fin 3) (Fin 3) ℝ :=
  let x := rng.normal (4 * i)
  let y := rng.normal (4 * i + 1)
  let z := rng.normal (4 * i + 2)
  let w := rng.normal (4 * i + 3)
  let nrm := Real.sqrt (x ^ 2 + y ^ 2 + z ^ 2 + w ^ 2)
  scipyQuatMatrix (x / nrm) (y / nrm) (z / nrm) (w / nrm)

/-- numpy slice assignment `tf[:3, :3] = R` on a 4×4 matrix. -/
def setRotBlock (M : Matrix (Fin 4) (Fin 4) ℝ) (R : Matrix (Fin 3) (Fin 3) ℝ) :
    Matrix (Fin 4) (Fin 4) ℝ :=
  Matrix.of fun i j =>
    if hi : (i : ℕ) < 3 then
      if hj : (j : ℕ) < 3 then R ⟨i, hi⟩ ⟨j, hj⟩ else M i j
    else M i j

/-- numpy element assignment `tf[r, c] = v` on a 4×4 matrix. -/
def setEntry (M : Matrix (Fin 4) (Fin 4) ℝ) (r c : Fin 4) (v : ℝ) :
    Matrix (Fin 4) (Fin 4) ℝ :=
  Matrix.of fun i j => if i = r ∧ j = c then v else M i j

/-- The i-th pose assembled by `get_evaluation_poses`: start from `np.eye(4)`,
write the sampled rotation into `[:3,:3]`, then write
`x_pos = radii * cos(angles)` into `[0,3]`, `y_pos = radii * sin(angles)` into
`[1,3]`, and the uniform height into `[2,3]`, where
`radii = max_radius * sqrt(uniform(0,1))` and
`angles = 2π * uniform(0,1)`. -/
noncomputable def poseAt (max_radius max_z : ℝ) (rng : Rng) (n_samples i : ℕ) :
    Matrix (Fin 4) (Fin 4) ℝ :=
  let tf0 := (1 : Matrix (Fin 4) (Fin 4) ℝ)
  let tf1 := setRotBlock tf0 (rotationRandomMatrix rng i)
  let radius := max_radius * Real.sqrt (npUniform 0 1 (rng.unit i))
  let angle := 2 * Real.pi * npUniform 0 1 (rng.unit (n_samples + i))
  let x_pos := radius * Real.cos angle
  let y_pos := radius * Real.sin angle
  let tf2 := setEntry tf1 0 3 x_pos
  let tf3 := setEntry tf2 1 3 y_pos
  setEntry tf3 2 3 (npUniform 0 max_z (rng.unit (2 * n_samples + i)))

/-- `get_evaluation_poses(max_radius, max_z, n_samples, seed)`: seed the
generator, then produce the `n_samples` poses in index order. -/
noncomputable def get_evaluation_poses (mkRng : ℤ → Rng) (max_radius max_z : ℝ)
    (n_samples : ℕ) (seed : ℤ) : List (Matrix (Fin 4) (Fin 4) ℝ) :=
  let rng := mkRng seed
  (List.range n_samples).map (poseAt max_radius max_z rng n_samples)

/-- The `Simulator` collaborator, through the one operation `evaluate_ik`
uses: `sim.tf_to_pos_quat`, converting a 4×4 transform to the solver's
position/orientation representation (types `P`, `Q` abstract). -/
structure Simulator (P Q : Type) where
  tf_to_pos_quat : Matrix (Fin 4) (Fin 4) ℝ → P × Q

/-- The `RobotBase` collaborator, through the one operation `evaluate_ik`
uses: `robot.inverse_kinematics(pos, quat, threshold=…, trials=…, seed=…)`,
returning a joint solution (type `S` abstract) or `None`. -/
structure RobotBase (P Q S : Type) where
  inverse_kinematics : P → Q → ℤ → ℤ → ℤ → Option S

/-- `evaluate_ik(tfs_ee, sim, robot, threshold, iterations, seed)`: for each
pose, convert with `sim.tf_to_pos_quat`, call `robot.inverse_kinematics` with
the configured threshold, trial budget and seed, and record
`ik_sln is not None`. -/
def evaluate_ik {P Q S : Type} (tfs_ee : List (Matrix (Fin 4) (Fin 4) ℝ))
    (sim : Simulator P Q) (robot : RobotBase P Q S)
    (threshold iterations seed : ℤ) : List Bool :=
  tfs_ee.map fun tf =>
    let pq := sim.tf_to_pos_quat tf
    (robot.inverse_kinematics pq.1 pq.2 threshold iterations seed).isSome

/-- One recorded invocation of `robot.inverse_kinematics`. -/
structure IkCall (P Q : Type) where
  pos : P
  quat : Q
  threshold : ℤ
  trials : ℤ
  seed : ℤ

/-- The arguments `evaluate_ik` hands to the solver for pose `tf`. -/
def callOf {P Q : Type} (sim : Simulator P Q) (threshold iterations seed : ℤ)
    (tf : Matrix (Fin 4) (Fin 4) ℝ) : IkCall P Q :=
  ⟨(sim.tf_to_pos_quat tf).1, (sim.tf_to_pos_quat tf).2, threshold, iterations, seed⟩

/-- Loop state of `evaluate_ik`: the pose array, the preallocated verdict
array `reachable_by_ik`, and the trace of solver invocations made so far. -/
structure EvalState (P Q : Type) where
  tfs : List (Matrix (Fin 4) (Fin 4) ℝ)
  reachable : List Bool
  calls : List (IkCall P Q)

/-- One iteration of the `evaluate_ik` loop at index `i`: read `tfs_ee[i]`,
convert, invoke the solver once, and write `reachable_by_ik[i]`. -/
def ikStep {P Q S : Type} (sim : Simulator P Q) (robot : RobotBase P Q S)
    (threshold iterations seed : ℤ) (s : EvalState P Q) (i : ℕ) : EvalState P Q :=
  let tf := s.tfs.getD i 1
  let pq := sim.tf_to_pos_quat tf
  let ik_sln := robot.inverse_kinematics pq.1 pq.2 threshold iterations seed
  ⟨s.tfs, s.reachable.set i ik_sln.isSome,
    s.calls ++ [⟨pq.1, pq.2, threshold, iterations, seed⟩]⟩

/-- The `evaluate_ik` loop, instrumented with the invocation trace: start
from `reachable_by_ik = np.zeros(len(tfs_ee), dtype=bool)` and run the loop
body `for i in range(len(tfs_ee))`. -/
def evaluate_ik_run {P Q S : Type} (tfs_ee : List (Matrix (Fin 4) (Fin 4) ℝ))
    (sim : Simulator P Q) (robot : RobotBase P Q S)
    (threshold iterations seed : ℤ) : EvalState P Q :=
  (List.range tfs_ee.length).foldl (ikStep sim robot threshold iterations seed)
    ⟨tfs_ee, List.replicate tfs_ee.length false, []⟩

/-- `evaluate_ik` against a solver that may raise a hard error (modelled as
`Except E`): the Python loop has no handler, so an error at any iteration
propagates and aborts, producing no verdict array. -/
def evaluate_ik_exc {P Q S E : Type} (sim : Simulator P Q)
    (ik : P → Q → ℤ → ℤ → ℤ → Except E (Option S))
    (threshold iterations seed : ℤ) :
    List (Matrix (Fin 4) (Fin 4) ℝ) → Except E (List Bool)
  | [] => Except.ok []
  | tf :: rest =>
    let pq := sim.tf_to_pos_quat tf
    match ik pq.1 pq.2 threshold iterations seed with
    | Except.error e => Except.error e
    | Except.ok ik_sln =>
      match evaluate_ik_exc sim ik threshold iterations seed rest with
      | Except.error e => Except.error e
      | Except.ok rs => Except.ok (ik_sln.isSome :: rs)

/-- Events of `main` relevant to ordering: persisting the pose set
(`np.save(poses_fn, poses)`), the individual solver invocations inside
`evaluate_ik`, and persisting the verdicts (`np.save(reachable_fn, …)`). -/
inductive MainEvent (P Q : Type) where
  | savePoses (poses : List (Matrix (Fin 4) (Fin 4) ℝ))
  | ikCall (c : IkCall P Q)
  | saveReachable (r : List Bool)

/-- The part of `main` after configuration: sample the poses, save them,
evaluate reachability, save the verdicts.  Returns the event trace in
program order together with the final evaluation state. -/
noncomputable def mainRun {P Q S : Type} (mkRng : ℤ → Rng)
    (sim : Simulator P Q) (robot : RobotBase P Q S)
    (range_radius range_z : ℝ) (num_samples : ℕ)
    (threshold iterations seed : ℤ) :
    List (MainEvent P Q) × EvalState P Q :=
  let poses := get_evaluation_poses mkRng range_radius range_z num_samples seed
  let st := evaluate_ik_run poses sim robot threshold iterations seed
  (MainEvent.savePoses poses :: (st.calls.map MainEvent.ikCall
      ++ [MainEvent.saveReachable st.reachable]), st)

/-- Whether an `ikCall` event occurs before the first `savePoses` event. -/
def ikCallBeforePoseSave {P Q : Type} : List (MainEvent P Q) → Bool
  | [] => false
  | MainEvent.ikCall _ :: _ => true
  | MainEvent.savePoses _ :: _ => false
  | MainEvent.saveReachable _ :: rest => ikCallBeforePoseSave rest

/-- The upper-left 3×3 block of a 4×4 transform. -/
def rotBlock (M : Matrix (Fin 4) (Fin 4) ℝ) : Matrix (Fin 3) (Fin 3) ℝ :=
  Matrix.of fun i j => M ⟨i.1, by omega⟩ ⟨j.1, by omega⟩

section PoseEntryLemmas

variable (max_radius max_z : ℝ) (rng : Rng) (n_samples i : ℕ)

lemma poseAt_x :
    poseAt max_radius max_z rng n_samples i 0 3 =
      (max_radius * Real.sqrt (npUniform 0 1 (rng.unit i))) *
        Real.cos (2 * Real.pi * npUniform 0 1 (rng.unit (n_samples + i))) := by
  simp [poseAt, setEntry, setRotBlock]

lemma poseAt_y :
    poseAt max_radius max_z rng n_samples i 1 3 =
      (max_radius * Real.sqrt (npUniform 0 1 (rng.unit i))) *
        Real.sin (2 * Real.pi * npUniform 0 1 (rng.unit (n_samples + i))) := by
  simp [poseAt, setEntry, setRotBlock]

lemma poseAt_z :
    poseAt max_radius max_z rng n_samples i 2 3 =
      npUniform 0 max_z (rng.unit (2 * n_samples + i)) := by
  simp [poseAt, setEntry, setRotBlock]

lemma poseAt_bottom (j : Fin 4) :
    poseAt max_radius max_z rng n_samples i 3 j = if j = 3 then 1 else 0 := by
  fin_cases j <;> simp [poseAt, setEntry, setRotBlock, Matrix.one_apply] <;>
    (intro h; exact absurd h (by decide))

lemma rotBlock_poseAt :
    rotBlock (poseAt max_radius max_z rng n_samples i) = rotationRandomMatrix rng i := by
  ext a b
  fin_cases a <;> fin_cases b <;>
    simp [rotBlock, poseAt, setEntry, setRotBlock]

lemma get_evaluation_poses_getElem (mkRng : ℤ → Rng) (seed : ℤ) (h : i < n_samples) :
    (get_evaluation_poses mkRng max_radius max_z n_samples seed)[i]? =
      some (poseAt max_radius max_z (mkRng seed) n_samples i) := by
  simp [get_evaluation_poses, List.getElem?_map, List.getElem?_range, h]

end PoseEntryLemmas

section RotationLemmas

lemma scipyQuatMatrix_mul_transpose (x y z w : ℝ) (h : x ^ 2 + y ^ 2 + z ^ 2 + w ^ 2 = 1) :
    scipyQuatMatrix x y z w * (scipyQuatMatrix x y z w).transpose = 1 := by
  ext i j
  fin_cases i <;> fin_cases j <;>
    simp [scipyQuatMatrix, Matrix.mul_apply, Fin.sum_univ_three, Matrix.one_apply,
      Matrix.transpose_apply, Matrix.vecHead, Matrix.vecTail] <;>
    first
      | ring1
      | linear_combination (x ^ 2 + y ^ 2 + z ^ 2 + w ^ 2 + 1) * h

lemma scipyQuatMatrix_det (x y z w : ℝ) (h : x ^ 2 + y ^ 2 + z ^ 2 + w ^ 2 = 1) :
    (scipyQuatMatrix x y z w).det = 1 := by
  simp [scipyQuatMatrix, Matrix.det_fin_three]
  linear_combination ((x ^ 2 + y ^ 2 + z ^ 2 + w ^ 2) ^ 2 + (x ^ 2 + y ^ 2 + z ^ 2 + w ^ 2) + 1) * h

lemma normalizedQuat_norm (x y z w : ℝ) (h : 0 < x ^ 2 + y ^ 2 + z ^ 2 + w ^ 2) :
    (x / Real.sqrt (x ^ 2 + y ^ 2 + z ^ 2 + w ^ 2)) ^ 2 +
      (y / Real.sqrt (x ^ 2 + y ^ 2 + z ^ 2 + w ^ 2)) ^ 2 +
      (z / Real.sqrt (x ^ 2 + y ^ 2 + z ^ 2 + w ^ 2)) ^ 2 +
      (w / Real.sqrt (x ^ 2 + y ^ 2 + z ^ 2 + w ^ 2)) ^ 2 = 1 := by
  have hs : Real.sqrt (x ^ 2 + y ^ 2 + z ^ 2 + w ^ 2) ^ 2 = x ^ 2 + y ^ 2 + z ^ 2 + w ^ 2 :=
    Real.sq_sqrt h.le
  have hne : Real.sqrt (x ^ 2 + y ^ 2 + z ^ 2 + w ^ 2) ≠ 0 :=
    ne_of_gt (Real.sqrt_pos.mpr h)
  field_simp

/-- The squared euclidean norm of the four normal draws backing rotation `i`. -/
def quatNormSq (rng : Rng) (i : ℕ) : ℝ :=
  rng.normal (4 * i) ^ 2 + rng.normal (4 * i + 1) ^ 2 +
    rng.normal (4 * i + 2) ^ 2 + rng.normal (4 * i + 3) ^ 2

lemma rotationRandomMatrix_mul_transpose (rng : Rng) (i : ℕ)
    (h : 0 < quatNormSq rng i) :
    rotationRandomMatrix rng i * (rotationRandomMatrix rng i).transpose = 1 :=
  scipyQuatMatrix_mul_transpose _ _ _ _ (normalizedQuat_norm _ _ _ _ h)

lemma rotationRandomMatrix_det (rng : Rng) (i : ℕ)
    (h : 0 < quatNormSq rng i) :
    (rotationRandomMatrix rng i).det = 1 :=
  scipyQuatMatrix_det _ _ _ _ (normalizedQuat_norm _ _ _ _ h)

end RotationLemmas

section EvaluatorLemmas

variable {P Q S : Type} (sim : Simulator P Q) (robot : RobotBase P Q S)
variable (threshold iterations seed : ℤ)
variable (tfs_ee : List (Matrix (Fin 4) (Fin 4) ℝ))

/-- The evaluator loop after its first `k` iterations. -/
def evalPartial (k : ℕ) : EvalState P Q :=
  (List.range k).foldl (ikStep sim robot threshold iterations seed)
    ⟨tfs_ee, List.replicate tfs_ee.length false, []⟩

lemma evaluate_ik_run_eq_evalPartial :
    evaluate_ik_run tfs_ee sim robot threshold iterations seed =
      evalPartial sim robot threshold iterations seed tfs_ee tfs_ee.length := rfl

lemma evalPartial_succ (k : ℕ) :
    evalPartial sim robot threshold iterations seed tfs_ee (k + 1) =
      ikStep sim robot threshold iterations seed
        (evalPartial sim robot threshold iterations seed tfs_ee k) k := by
  simp [evalPartial, List.range_succ]

lemma evalPartial_tfs (k : ℕ) :
    (evalPartial sim robot threshold iterations seed tfs_ee k).tfs = tfs_ee := by
  induction k with
  | zero => rfl
  | succ k ih => rw [evalPartial_succ]; simpa [ikStep] using ih

lemma evalPartial_calls (k : ℕ) (hk : k ≤ tfs_ee.length) :
    (evalPartial sim robot threshold iterations seed tfs_ee k).calls =
      (tfs_ee.take k).map (callOf sim threshold iterations seed) := by
  induction k with
  | zero => rfl
  | succ k ih =>
    have hklt : k < tfs_ee.length := hk
    have hget : tfs_ee[k]? = some (tfs_ee.get ⟨k, hklt⟩) := by
      simp [List.getElem?_eq_getElem hklt]
    rw [evalPartial_succ]
    simp only [ikStep, evalPartial_tfs, List.take_succ, List.map_append, hget,
      ih hklt.le, Option.toList_some, List.map_cons, List.map_nil]
    simp [List.getD, hget, callOf]

lemma evalPartial_reachable (k : ℕ) (hk : k ≤ tfs_ee.length) :
    (evalPartial sim robot threshold iterations seed tfs_ee k).reachable =
      evaluate_ik (tfs_ee.take k) sim robot threshold iterations seed ++
        List.replicate (tfs_ee.length - k) false := by
  induction k with
  | zero =>
    show List.replicate tfs_ee.length false = _
    simp [evaluate_ik]
  | succ k ih =>
    have hklt : k < tfs_ee.length := hk
    have hget : tfs_ee[k]? = some (tfs_ee.get ⟨k, hklt⟩) := by
      simp [List.getElem?_eq_getElem hklt]
    have hlen : (evaluate_ik (tfs_ee.take k) sim robot threshold iterations seed).length = k := by
      simp [evaluate_ik, List.length_take, Nat.min_eq_left hklt.le]
    have hrep : tfs_ee.length - k = (tfs_ee.length - (k + 1)) + 1 := by omega
    rw [evalPartial_succ]
    simp only [ikStep, evalPartial_tfs, ih hklt.le]
    rw [hrep, List.replicate_succ]
    rw [List.set_append_right _ _ (by omega)]
    simp only [hlen, Nat.sub_self, List.set_cons_zero]
    have hgd : tfs_ee.getD k 1 = tfs_ee.get ⟨k, hklt⟩ := by
      rw [List.getD_eq_getElem?_getD, hget, Option.getD_some]
    have htake : tfs_ee.take (k + 1) = tfs_ee.take k ++ [tfs_ee.get ⟨k, hklt⟩] := by
      rw [List.take_succ, hget]; rfl
    rw [hgd, htake]
    simp only [evaluate_ik, List.map_take, List.take_succ, List.getElem?_map, hget,
      Option.map_some, Option.toList_some, List.map_append, List.map_cons, List.map_nil,
      List.append_assoc, List.singleton_append]

lemma evaluate_ik_run_tfs :
    (evaluate_ik_run tfs_ee sim robot threshold iterations seed).tfs = tfs_ee := by
  rw [evaluate_ik_run_eq_evalPartial]; exact evalPartial_tfs _ _ _ _ _ _ _

lemma evaluate_ik_run_calls :
    (evaluate_ik_run tfs_ee sim robot threshold iterations seed).calls =
      tfs_ee.map (callOf sim threshold iterations seed) := by
  rw [evaluate_ik_run_eq_evalPartial, evalPartial_calls _ _ _ _ _ _ _ le_rfl,
    List.take_length]

lemma evaluate_ik_run_reachable :
    (evaluate_ik_run tfs_ee sim robot threshold iterations seed).reachable =
      evaluate_ik tfs_ee sim robot threshold iterations seed := by
  rw [evaluate_ik_run_eq_evalPartial, evalPartial_reachable _ _ _ _ _ _ _ le_rfl,
    List.take_length]
  simp

end EvaluatorLemmas

section ExcLemmas

variable {P Q S E : Type} (sim : Simulator P Q)
variable (ik : P → Q → ℤ → ℤ → ℤ → Except E (Option S))
variable (threshold iterations seed : ℤ)

/-- The solver invocation `evaluate_ik` makes for pose `tf`, against a solver
that may raise. -/
def ikExcCall (tf : Matrix (Fin 4) (Fin 4) ℝ) : Except E (Option S) :=
  ik (sim.tf_to_pos_quat tf).1 (sim.tf_to_pos_quat tf).2 threshold iterations seed

lemma evaluate_ik_exc_cons (tf : Matrix (Fin 4) (Fin 4) ℝ)
    (rest : List (Matrix (Fin 4) (Fin 4) ℝ)) :
    evaluate_ik_exc sim ik threshold iterations seed (tf :: rest) =
      match ikExcCall sim ik threshold iterations seed tf with
      | Except.error e => Except.error e
      | Except.ok ik_sln =>
        match evaluate_ik_exc sim ik threshold iterations seed rest with
        | Except.error e => Except.error e
        | Except.ok rs => Except.ok (ik_sln.isSome :: rs) := rfl

lemma evaluate_ik_exc_propagates (tfs : List (Matrix (Fin 4) (Fin 4) ℝ)) :
    ∀ (i : ℕ) (hi : i < tfs.length) (e : E),
      (∀ (j : ℕ) (hj : j < i), ∃ r,
        ikExcCall sim ik threshold iterations seed (tfs.get ⟨j, hj.trans hi⟩) = Except.ok r) →
      ikExcCall sim ik threshold iterations seed (tfs.get ⟨i, hi⟩) = Except.error e →
      evaluate_ik_exc sim ik threshold iterations seed tfs = Except.error e := by
  induction tfs with
  | nil => intro i hi; simp at hi
  | cons tf rest ih =>
    intro i hi e hok herr
    rw [evaluate_ik_exc_cons]
    match i with
    | 0 =>
      rw [show (tf :: rest).get ⟨0, hi⟩ = tf from rfl] at herr
      rw [herr]
    | Nat.succ j =>
      obtain ⟨r, hr⟩ := hok 0 (Nat.succ_pos j)
      rw [show (tf :: rest).get ⟨0, Nat.succ_pos j |>.trans hi⟩ = tf from rfl] at hr
      rw [hr]
      have hj : j < rest.length := Nat.lt_of_succ_lt_succ hi
      have hrec : evaluate_ik_exc sim ik threshold iterations seed rest = Except.error e := by
        apply ih j hj e
        · intro j' hj'
          obtain ⟨r', hr'⟩ := hok (j' + 1) (Nat.succ_lt_succ hj')
          exact ⟨r', hr'⟩
        · exact herr
      rw [hrec]

/-- Against a solver that never raises, the exception-aware evaluator agrees
with `evaluate_ik`. -/
lemma evaluate_ik_exc_ok (robot : RobotBase P Q S)
    (hik : ∀ p q a b c, ik p q a b c = Except.ok (robot.inverse_kinematics p q a b c))
    (tfs : List (Matrix (Fin 4) (Fin 4) ℝ)) :
    evaluate_ik_exc sim ik threshold iterations seed tfs =
      Except.ok (evaluate_ik tfs sim robot threshold iterations seed) := by
  induction tfs with
  | nil => rfl
  | cons tf rest ih =>
    rw [evaluate_ik_exc_cons, ikExcCall, hik, ih]
    rfl

end ExcLemmas

lemma get_evaluation_poses_length (mkRng : ℤ → Rng) (max_radius max_z : ℝ)
    (n_samples : ℕ) (seed : ℤ) :
    (get_evaluation_poses mkRng max_radius max_z n_samples seed).length = n_samples := by
  simp [get_evaluation_poses]

/-- C1: for every `max_radius ≥ 0`, `max_z ≥ 0` and `n_samples ≥ 0`, each
sampled position follows the disk-area-correct law: with `u` the i-th draw of
the first uniform call, `v` the i-th draw of the second and `w` the i-th draw
of the third, the i-th pose has `x = (max_radius·√u)·cos(2π·v)`,
`y = (max_radius·√u)·sin(2π·v)` and `z = max_z·w` — the radius is
`max_radius·√u`, not `max_radius·u`, and the height draw is independent of
(distinct stream position from) the radius and angle draws. -/
theorem C1_disk_area_law (mkRng : ℤ → Rng) (max_radius max_z : ℝ)
    (n_samples : ℕ) (seed : ℤ) (hR : 0 ≤ max_radius) (hz : 0 ≤ max_z)
    (i : ℕ) (hi : i < n_samples) :
    ∃ M, (get_evaluation_poses mkRng max_radius max_z n_samples seed)[i]? = some M ∧
      M 0 3 = max_radius * Real.sqrt ((mkRng seed).unit i) *
        Real.cos (2 * Real.pi * (mkRng seed).unit (n_samples + i)) ∧
      M 1 3 = max_radius * Real.sqrt ((mkRng seed).unit i) *
        Real.sin (2 * Real.pi * (mkRng seed).unit (n_samples + i)) ∧
      M 2 3 = max_z * (mkRng seed).unit (2 * n_samples + i) := by
  refine ⟨_, get_evaluation_poses_getElem _ _ _ _ mkRng seed hi, ?_, ?_, ?_⟩
  · rw [poseAt_x]; simp [npUniform]
  · rw [poseAt_y]; simp [npUniform]
  · rw [poseAt_z]; simp [npUniform]

/-- C1 witness: the theorem applied at a concrete generator (all unit draws
0, all normal draws 1), `max_radius = max_z = 1`, one sample, index 0. -/
theorem C1_disk_area_law_witness :
    ∃ M, (get_evaluation_poses (fun _ => ⟨fun _ => 1, fun _ => 0⟩) 1 1 1 27)[0]? = some M ∧
      M 0 3 = 1 * Real.sqrt 0 * Real.cos (2 * Real.pi * 0) ∧
      M 1 3 = 1 * Real.sqrt 0 * Real.sin (2 * Real.pi * 0) ∧
      M 2 3 = 1 * 0 :=
  C1_disk_area_law (fun _ => ⟨fun _ => 1, fun _ => 0⟩) 1 1 1 27
    (by norm_num) (by norm_num) 0 (by norm_num)

/-- C2: `evaluate_ik` returns a boolean list of exactly the pose list's
length, and its i-th entry is `isSome` of the solver's answer on the i-th
pose, invoked with the configured threshold, trial budget and seed — `true`
iff a solution (not `None`) was returned. -/
theorem C2_verdict_alignment {P Q S : Type} (sim : Simulator P Q)
    (robot : RobotBase P Q S) (tfs_ee : List (Matrix (Fin 4) (Fin 4) ℝ))
    (threshold iterations seed : ℤ) :
    (evaluate_ik tfs_ee sim robot threshold iterations seed).length = tfs_ee.length ∧
    ∀ i : ℕ, (evaluate_ik tfs_ee sim robot threshold iterations seed)[i]? =
      (tfs_ee[i]?).map fun tf =>
        (robot.inverse_kinematics (sim.tf_to_pos_quat tf).1 (sim.tf_to_pos_quat tf).2
          threshold iterations seed).isSome := by
  constructor
  · simp [evaluate_ik]
  · intro i; simp [evaluate_ik]

/-- C3: the sampler returns exactly `n_samples` poses, and `n_samples = 0`
yields the empty pose set (totally, with no error). -/
theorem C3_sampler_count (mkRng : ℤ → Rng) (max_radius max_z : ℝ)
    (n_samples : ℕ) (seed : ℤ) :
    (get_evaluation_poses mkRng max_radius max_z n_samples seed).length = n_samples ∧
    get_evaluation_poses mkRng max_radius max_z 0 seed = [] := by
  refine ⟨get_evaluation_poses_length _ _ _ _ _, ?_⟩
  simp [get_evaluation_poses]

/-- C4: with in-range uniform draws, every sampled position lies in the
cylinder: `√(x²+y²) ≤ max_radius` and `0 ≤ z ≤ max_z`; and `max_radius = 0`
forces `x = y = 0`, `max_z = 0` forces `z = 0`. -/
theorem C4_positions_in_cylinder (mkRng : ℤ → Rng) (max_radius max_z : ℝ)
    (n_samples : ℕ) (seed : ℤ) (hR : 0 ≤ max_radius) (hz : 0 ≤ max_z)
    (hunit : ∀ k, 0 ≤ (mkRng seed).unit k ∧ (mkRng seed).unit k < 1)
    (i : ℕ) (hi : i < n_samples) :
    ∃ M, (get_evaluation_poses mkRng max_radius max_z n_samples seed)[i]? = some M ∧
      Real.sqrt (M 0 3 ^ 2 + M 1 3 ^ 2) ≤ max_radius ∧
      0 ≤ M 2 3 ∧ M 2 3 ≤ max_z ∧
      (max_radius = 0 → M 0 3 = 0 ∧ M 1 3 = 0) ∧
      (max_z = 0 → M 2 3 = 0) := by
  refine ⟨_, get_evaluation_poses_getElem _ _ _ _ mkRng seed hi, ?_⟩
  rw [poseAt_x, poseAt_y, poseAt_z]
  simp only [npUniform]
  set u := (mkRng seed).unit i with hu
  set v := (mkRng seed).unit (n_samples + i) with hv
  set w := (mkRng seed).unit (2 * n_samples + i) with hw
  have hu0 : 0 ≤ u := (hunit i).1
  have hu1 : u ≤ 1 := (hunit i).2.le
  have hw0 : 0 ≤ w := (hunit (2 * n_samples + i)).1
  have hw1 : w ≤ 1 := (hunit (2 * n_samples + i)).2.le
  have hru : (0 : ℝ) + (1 - 0) * u = u := by ring
  have hrz : (0 : ℝ) + (max_z - 0) * w = max_z * w := by ring
  rw [hru, hrz]
  have hr0 : 0 ≤ max_radius * Real.sqrt u := mul_nonneg hR (Real.sqrt_nonneg u)
  have hsq : (max_radius * Real.sqrt u * Real.cos (2 * Real.pi * (0 + (1 - 0) * v))) ^ 2 +
      (max_radius * Real.sqrt u * Real.sin (2 * Real.pi * (0 + (1 - 0) * v))) ^ 2 =
      (max_radius * Real.sqrt u) ^ 2 := by
    linear_combination ((max_radius * Real.sqrt u) ^ 2) *
      Real.cos_sq_add_sin_sq (2 * Real.pi * (0 + (1 - 0) * v))
  refine ⟨?_, ?_, ?_, ?_, ?_⟩
  · rw [hsq, Real.sqrt_sq hr0]
    exact mul_le_of_le_one_right hR (Real.sqrt_le_one.mpr hu1)
  · exact mul_nonneg hz hw0
  · exact mul_le_of_le_one_right hz hw1
  · intro h0; rw [h0]; constructor <;> ring
  · intro h0; rw [h0]; ring

/-- C4 witness: the theorem applied at a concrete generator (all unit draws
0), `max_radius = max_z = 1`, one sample, index 0. -/
theorem C4_positions_in_cylinder_witness :
    ∃ M, (get_evaluation_poses (fun _ => ⟨fun _ => 1, fun _ => 0⟩) 1 1 1 27)[0]? = some M ∧
      Real.sqrt (M 0 3 ^ 2 + M 1 3 ^ 2) ≤ 1 ∧
      0 ≤ M 2 3 ∧ M 2 3 ≤ 1 ∧
      ((1 : ℝ) = 0 → M 0 3 = 0 ∧ M 1 3 = 0) ∧
      ((1 : ℝ) = 0 → M 2 3 = 0) :=
  C4_positions_in_cylinder (fun _ => ⟨fun _ => 1, fun _ => 0⟩) 1 1 1 27
    (by norm_num) (by norm_num) (fun k => by constructor <;> norm_num) 0 (by norm_num)

/-- C5: every sampled pose is a valid homogeneous transform: provided the
backing quaternion draw is nonzero (scipy's `from_quat` requires this; a zero
draw has probability zero), the upper-left 3×3 block is orthonormal with
determinant +1, the sampled translation occupies the upper-right 3×1 block,
and the bottom row is exactly `[0,0,0,1]`. -/
theorem C5_homogeneous_transform (mkRng : ℤ → Rng) (max_radius max_z : ℝ)
    (n_samples : ℕ) (seed : ℤ) (i : ℕ) (hi : i < n_samples)
    (hq : 0 < quatNormSq (mkRng seed) i) :
    ∃ M, (get_evaluation_poses mkRng max_radius max_z n_samples seed)[i]? = some M ∧
      rotBlock M * (rotBlock M).transpose = 1 ∧
      (rotBlock M).det = 1 ∧
      M 0 3 = max_radius * Real.sqrt ((mkRng seed).unit i) *
        Real.cos (2 * Real.pi * (mkRng seed).unit (n_samples + i)) ∧
      M 1 3 = max_radius * Real.sqrt ((mkRng seed).unit i) *
        Real.sin (2 * Real.pi * (mkRng seed).unit (n_samples + i)) ∧
      M 2 3 = max_z * (mkRng seed).unit (2 * n_samples + i) ∧
      (∀ j : Fin 4, M 3 j = if j = 3 then 1 else 0) := by
  refine ⟨_, get_evaluation_poses_getElem _ _ _ _ mkRng seed hi, ?_, ?_, ?_, ?_, ?_, ?_⟩
  · rw [rotBlock_poseAt]
    exact rotationRandomMatrix_mul_transpose _ _ hq
  · rw [rotBlock_poseAt]
    exact rotationRandomMatrix_det _ _ hq
  · rw [poseAt_x]; simp [npUniform]
  · rw [poseAt_y]; simp [npUniform]
  · rw [poseAt_z]; simp [npUniform]
  · exact poseAt_bottom _ _ _ _ _

/-- C5 witness: the theorem applied at a concrete generator (all normal draws
1, so the quaternion draw is nonzero), one sample, index 0. -/
theorem C5_homogeneous_transform_witness :
    ∃ M, (get_evaluation_poses (fun _ => ⟨fun _ => 1, fun _ => 0⟩) 1 1 1 27)[0]? = some M ∧
      rotBlock M * (rotBlock M).transpose = 1 ∧
      (rotBlock M).det = 1 ∧
      M 0 3 = 1 * Real.sqrt 0 * Real.cos (2 * Real.pi * 0) ∧
      M 1 3 = 1 * Real.sqrt 0 * Real.sin (2 * Real.pi * 0) ∧
      M 2 3 = 1 * 0 ∧
      (∀ j : Fin 4, M 3 j = if j = 3 then 1 else 0) :=
  C5_homogeneous_transform (fun _ => ⟨fun _ => 1, fun _ => 0⟩) 1 1 1 27 0
    (by norm_num) (by norm_num [quatNormSq])

/-- C6: the sampler is deterministic: two runs with identical
`(seed, n_samples, max_radius, max_z)` (and the same underlying generator
algorithm `mkRng`) return identical pose sets. -/
theorem C6_deterministic (mkRng : ℤ → Rng) (max_radius₁ max_radius₂ max_z₁ max_z₂ : ℝ)
    (n₁ n₂ : ℕ) (seed₁ seed₂ : ℤ)
    (hR : max_radius₁ = max_radius₂) (hz : max_z₁ = max_z₂)
    (hn : n₁ = n₂) (hs : seed₁ = seed₂) :
    get_evaluation_poses mkRng max_radius₁ max_z₁ n₁ seed₁ =
      get_evaluation_poses mkRng max_radius₂ max_z₂ n₂ seed₂ := by
  rw [hR, hz, hn, hs]

/-- C6 witness: the theorem applied at a concrete generator and concrete
equal parameters. -/
theorem C6_deterministic_witness :
    get_evaluation_poses (fun _ => ⟨fun _ => 1, fun _ => 0⟩) 1 1 2 27 =
      get_evaluation_poses (fun _ => ⟨fun _ => 1, fun _ => 0⟩) 1 1 2 27 :=
  C6_deterministic (fun _ => ⟨fun _ => 1, fun _ => 0⟩) 1 1 1 1 2 2 27 27 rfl rfl rfl rfl

/-- C7: the evaluator's invocation trace is exactly one solver call per pose,
in index order — `n` invocations for `n` poses and no extra retries beyond
the single call (whose trial budget is the solver's own). -/
theorem C7_one_call_per_pose {P Q S : Type} (sim : Simulator P Q)
    (robot : RobotBase P Q S) (tfs_ee : List (Matrix (Fin 4) (Fin 4) ℝ))
    (threshold iterations seed : ℤ) :
    (evaluate_ik_run tfs_ee sim robot threshold iterations seed).calls =
      tfs_ee.map (callOf sim threshold iterations seed) :=
  evaluate_ik_run_calls sim robot threshold iterations seed tfs_ee

/-- C8: a hard solver error (an `Except.error`, as opposed to the
`no solution` value `Except.ok none`) at pose `i`, with all earlier poses
answered without error, propagates: the evaluation aborts with that error and
produces no verdict list at all. -/
theorem C8_hard_error_aborts {P Q S E : Type} (sim : Simulator P Q)
    (ik : P → Q → ℤ → ℤ → ℤ → Except E (Option S))
    (threshold iterations seed : ℤ) (tfs : List (Matrix (Fin 4) (Fin 4) ℝ))
    (i : ℕ) (hi : i < tfs.length) (e : E)
    (hbefore : ∀ (j : ℕ) (hj : j < i), ∃ r,
      ikExcCall sim ik threshold iterations seed (tfs.get ⟨j, hj.trans hi⟩) = Except.ok r)
    (herr : ikExcCall sim ik threshold iterations seed (tfs.get ⟨i, hi⟩) = Except.error e) :
    evaluate_ik_exc sim ik threshold iterations seed tfs = Except.error e :=
  evaluate_ik_exc_propagates sim ik threshold iterations seed tfs i hi e hbefore herr

/-- C8 witness: a solver that raises on its first call aborts the evaluation
of a one-pose set with that error. -/
theorem C8_hard_error_aborts_witness :
    evaluate_ik_exc (Simulator.mk (P := Unit) (Q := Unit) fun _ => ((), ()))
      (S := Unit) (fun _ _ _ _ _ => Except.error 7) 25 100 27
      [(1 : Matrix (Fin 4) (Fin 4) ℝ)] = Except.error (7 : ℕ) :=
  C8_hard_error_aborts (Simulator.mk fun _ => ((), ()))
    (fun _ _ _ _ _ => Except.error 7) 25 100 27 [(1 : Matrix (Fin 4) (Fin 4) ℝ)]
    0 (by simp) 7 (fun j hj => absurd hj (Nat.not_lt_zero j)) rfl

/-- C9: in `main`'s event order the complete pose set is persisted before any
solver invocation happens, and the evaluation loop leaves the pose array it
was given unchanged. -/
theorem C9_poses_saved_first_and_unchanged {P Q S : Type} (mkRng : ℤ → Rng)
    (sim : Simulator P Q) (robot : RobotBase P Q S)
    (range_radius range_z : ℝ) (num_samples : ℕ)
    (threshold iterations seed : ℤ) :
    ikCallBeforePoseSave (mainRun mkRng sim robot range_radius range_z num_samples
        threshold iterations seed).1 = false ∧
    (mainRun mkRng sim robot range_radius range_z num_samples
        threshold iterations seed).2.tfs =
      get_evaluation_poses mkRng range_radius range_z num_samples seed := by
  constructor
  · rfl
  · exact evaluate_ik_run_tfs sim robot threshold iterations seed _

/-- C10: every per-pose solver invocation in `main` carries the single run
seed — the `seed` field of all `n` recorded calls equals it — and the pose
set `main` persists is the sampler's output at that same seed value. -/
theorem C10_single_run_seed {P Q S : Type} (mkRng : ℤ → Rng)
    (sim : Simulator P Q) (robot : RobotBase P Q S)
    (range_radius range_z : ℝ) (num_samples : ℕ)
    (threshold iterations seed : ℤ) :
    (mainRun mkRng sim robot range_radius range_z num_samples
        threshold iterations seed).2.calls.map IkCall.seed =
      List.replicate num_samples seed ∧
    (mainRun mkRng sim robot range_radius range_z num_samples
        threshold iterations seed).1.head? =
      some (MainEvent.savePoses
        (get_evaluation_poses mkRng range_radius range_z num_samples seed)) := by
  constructor
  · show (evaluate_ik_run (get_evaluation_poses mkRng range_radius range_z num_samples seed)
        sim robot threshold iterations seed).calls.map IkCall.seed = _
    rw [evaluate_ik_run_calls]
    rw [List.map_map]
    have : (IkCall.seed ∘ callOf sim threshold iterations seed) =
        fun _ : Matrix (Fin 4) (Fin 4) ℝ => seed := by
      funext tf; rfl
    rw [this, List.map_const', get_evaluation_poses_length]
  · rfl
